import Mathlib

/-!
Verification of the Catalog Consistency Core of the LibraryQt application.

The definitions below are a shallow embedding of the C++ sources:
`BookModel.cpp` / `BookModel.h` (book collection, lending state, JSON/XML/SQL
serialization), `ReaderModel.cpp` / `ReaderModel.h` (reader collection, book
links, rename cascade, serialization), `InputValid.cpp` (validation and
whitespace normalization) and `mainwindow.cpp` (report pipeline and dialogs).
`QString` is modelled as `String`, `QList` as `List`, `QDate` values as an
explicit day/month/year record (an invalid `QDate` is `Option.none` where the
source stores a possibly-invalid date directly), `std::optional` as `Option`,
and thrown exceptions as `Except` error results paired with the unchanged
state.  Randomness (`QRandomGenerator::bounded`) is modelled as an explicit
stream of draws, and the unbounded retry loops as fuel-indexed recursion.
-/

/-- Calendar date, the model of a valid `QDate` (day/month/year). -/
structure LDate where
  day : Nat
  month : Nat
  year : Nat
deriving DecidableEq, Repr

/-- Model of `QDate::isLeapYear`. -/
def isLeap (y : Nat) : Bool :=
  (y % 4 = 0 && y % 100 ≠ 0) || y % 400 = 0

/-- Days in a month, as `QDate` validity uses (with leap years). -/
def daysInMonth (m y : Nat) : Nat :=
  if m = 2 then (if isLeap y then 29 else 28)
  else if m = 4 ∨ m = 6 ∨ m = 9 ∨ m = 11 then 30
  else 31

/-- A date `QDate` would accept, restricted to four-digit years (the `yyyy`
pattern used throughout the sources reads and writes exactly four digits). -/
def validDate (d : LDate) : Bool :=
  1 ≤ d.year && d.year ≤ 9999 && 1 ≤ d.month && d.month ≤ 12 &&
  1 ≤ d.day && d.day ≤ daysInMonth d.month d.year

/-- The `Book` struct of `BookModel.h`. -/
structure Book where
  code : String
  name : String
  author : String
  is_taken : Bool
  date_taken : Option LDate
deriving DecidableEq, Repr

/-- The default-constructed `Book` of `BookModel.h` line 39: all `QString`
fields empty, `is_taken` false, `date_taken` absent. -/
def defaultBook : Book :=
  { code := "", name := "", author := "", is_taken := false, date_taken := none }

/-- The `Sex` enum of `ReaderModel.h` (`Female` = 0, `Male` = 1). -/
inductive Sex where
  | Female
  | Male
deriving DecidableEq, Repr

/-- Integer value of the `Sex` enum, as serialized by the JSON backend. -/
def sexToNat : Sex → Nat
  | .Female => 0
  | .Male => 1

/-- The `Reader` struct of `ReaderModel.h`.  `reg_date = none` models an
invalid (default-constructed) `QDate`. -/
structure Reader where
  ID : String
  first_name : String
  second_name : String
  third_name : String
  gender : Sex
  reg_date : Option LDate
  taken_books : List String
deriving DecidableEq, Repr

/-- The error kinds thrown by the catalog operations (`Exception.h`). -/
inductive CatalogError where
  | bookDeleteForbidden
  | readerDeleteForbidden
deriving DecidableEq, Repr

/-- `BookModel::RemoveBook` (BookModel.cpp 146-163): scan for the first book
with the given code; if it is taken, throw `BookDeleteForbiddenException`
(leaving the list unchanged); otherwise remove it and return `true`; return
`false` when no book matches.  The pair carries the result (or the thrown
error) together with the resulting book list. -/
def RemoveBook : List Book → String → Except CatalogError Bool × List Book
  | [], _ => (.ok false, [])
  | b :: rest, code =>
    if b.code = code then
      if b.is_taken then (.error .bookDeleteForbidden, b :: rest)
      else (.ok true, rest)
    else
      let (r, rest') := RemoveBook rest code
      (r, b :: rest')

/-- `BookModel::AddBook` (BookModel.cpp 133-140): append the book at the end.
No uniqueness check is performed. -/
def AddBook (books : List Book) (b : Book) : List Book :=
  books ++ [b]

/-- `ReaderModel::AddReader` (ReaderModel.cpp 128-135): append the reader at
the end.  No uniqueness check is performed. -/
def AddReader (readers : List Reader) (r : Reader) : List Reader :=
  readers ++ [r]

/-- Uniqueness of `Book.code` within a book collection. -/
def codesUnique (books : List Book) : Prop :=
  (books.map Book.code).Nodup

/-- Uniqueness of `Reader.ID` within a reader collection. -/
def idsUnique (readers : List Reader) : Prop :=
  (readers.map Reader.ID).Nodup

instance (books : List Book) : Decidable (codesUnique books) := by
  unfold codesUnique; infer_instance

instance (readers : List Reader) : Decidable (idsUnique readers) := by
  unfold idsUnique; infer_instance

/-- A sample stored book used in concrete instantiations. -/
def sampleBookFree : Book :=
  { code := "B1000", name := "Voina i mir", author := "Tolstoi",
    is_taken := false, date_taken := none }

/-- A sample taken book used in concrete instantiations. -/
def sampleBookTaken : Book :=
  { code := "B2000", name := "Anna Karenina", author := "Tolstoi",
    is_taken := true, date_taken := some ⟨10, 5, 2024⟩ }

/-- A second book sharing the code of `sampleBookFree` but with a different
title, used to exhibit the missing uniqueness check in `AddBook`. -/
def sampleBookDup : Book :=
  { code := "B1000", name := "Drugaia kniga", author := "Avtor",
    is_taken := false, date_taken := none }

/-- A sample reader sharing the ID shape generated by the application. -/
def sampleReader : Reader :=
  { ID := "R1234", first_name := "Ivanov", second_name := "Ivan",
    third_name := "Ivanovich", gender := .Male,
    reg_date := some ⟨1, 2, 2024⟩, taken_books := ["B2000"] }

/-- The inner loop body of `ReaderModel::UpdateBookCodeForAllReaders`
(ReaderModel.cpp 527-533): every `taken_books` entry equal to `oldCode` is
overwritten with `newCode`; no other entry and no other field is written. -/
def updateReaderCodes (r : Reader) (oldCode newCode : String) : Reader :=
  { r with taken_books := r.taken_books.map fun c => if c = oldCode then newCode else c }

/-- `ReaderModel::UpdateBookCodeForAllReaders` (ReaderModel.cpp 519-545):
walk the readers, rewrite matching `taken_books` entries, and return whether
any entry matched (`changedAny`), together with the resulting reader list. -/
def UpdateBookCodeForAllReaders : List Reader → String → String → Bool × List Reader
  | [], _, _ => (false, [])
  | r :: rest, oldCode, newCode =>
    let rowChanged := r.taken_books.contains oldCode
    let (restChanged, rest') := UpdateBookCodeForAllReaders rest oldCode newCode
    (rowChanged || restChanged, updateReaderCodes r oldCode newCode :: rest')

/-- `BookModel::SetBookTaken` (BookModel.cpp 199-213): find the first book
with the given code, assign `is_taken := isTaken` and `date_taken := date`
(the date argument is stored unconditionally), return `true`; return `false`
leaving the list unchanged when no book matches. -/
def SetBookTaken : List Book → String → Bool → Option LDate → Bool × List Book
  | [], _, _, _ => (false, [])
  | b :: rest, code, isTaken, date =>
    if b.code = code then
      (true, { b with is_taken := isTaken, date_taken := date } :: rest)
    else
      let (r, rest') := SetBookTaken rest code isTaken date
      (r, b :: rest')

/-- `BookModel::FindBook` (BookModel.cpp 170-177): return the first book with
the given code, or a default-constructed `Book` when none matches.  The return
type is a plain `Book`: no optional and no error channel. -/
def FindBook : List Book → String → Book
  | [], _ => defaultBook
  | b :: rest, code => if b.code = code then b else FindBook rest code

/-- Lookup in the `QHash<QString, const Book*>` built by
`buildReportHtmlFromData` (mainwindow.cpp 51-54): `QHash::insert` replaces an
existing entry, so the last book with a given code wins. -/
def lookupLast (books : List Book) (code : String) : Option Book :=
  books.foldl (fun acc b => if b.code = code then some b else acc) none

/-- The display name concatenation used for report rows (mainwindow.cpp 188):
`first_name + " " + second_name + " " + third_name`. -/
def fioOf (r : Reader) : String :=
  r.first_name ++ " " ++ r.second_name ++ " " ++ r.third_name

/-- `QString::toHtmlEscaped`: replace the four HTML metacharacters. -/
def htmlEscape (s : String) : String :=
  String.join (s.data.map fun c =>
    if c = '<' then "&lt;"
    else if c = '>' then "&gt;"
    else if c = '&' then "&amp;"
    else if c = '"' then "&quot;"
    else String.mk [c])

/-- Digit character of a value below ten. -/
def digitChar (n : Nat) : Char :=
  Char.ofNat (48 + n)

/-- Two-digit zero-padded decimal, the `dd` / `MM` patterns (valid below 100). -/
def pad2 (n : Nat) : List Char :=
  [digitChar (n / 10), digitChar (n % 10)]

/-- Four-digit zero-padded decimal, the `yyyy` pattern (valid below 10000). -/
def pad4 (n : Nat) : List Char :=
  [digitChar (n / 1000), digitChar (n / 100 % 10), digitChar (n / 10 % 10), digitChar (n % 10)]

/-- `QDate::toString("dd.MM.yyyy")`, the date rendering of the report. -/
def dateToDot (d : LDate) : String :=
  ⟨pad2 d.day ++ '.' :: pad2 d.month ++ '.' :: pad4 d.year⟩

/-- One row of the debtor table (mainwindow.cpp 195-205): reader ID, display
name, the found book's code and title, and the rendered loan date. -/
structure DebtorRow where
  rid : String
  fio : String
  bcode : String
  bname : String
  dateStr : String
deriving DecidableEq, Repr

/-- The row the debtor loop emits for one `taken_books` entry of one reader
(mainwindow.cpp 189-206): `none` when the hash lookup misses or the found
book is not marked taken. -/
def debtorRowOf (books : List Book) (r : Reader) (code : String) : Option DebtorRow :=
  match lookupLast books code with
  | none => none
  | some b =>
    if b.is_taken then
      some { rid := r.ID, fio := fioOf r, bcode := b.code, bname := b.name,
             dateStr := match b.date_taken with
                        | some d => dateToDot d
                        | none => "" }
    else none

/-- The debtor rows of `buildReportHtmlFromData` (mainwindow.cpp 187-207):
for each reader, for each of its `taken_books` codes, a row is emitted exactly
when the hash lookup finds a book for the code and that book is marked taken. -/
def debtorRows (books : List Book) (readers : List Reader) : List DebtorRow :=
  readers.flatMap fun r => r.taken_books.filterMap (debtorRowOf books r)

/-- The lookup outcome the debtor loop tests: the book the hash holds for the
code, if any, is marked taken. -/
def bookTakenAt (books : List Book) (code : String) : Bool :=
  match lookupLast books code with
  | none => false
  | some b => b.is_taken

/-- HTML of one debtor row (mainwindow.cpp 195-205). -/
def debtorRowHtml (row : DebtorRow) : String :=
  "<tr>" ++
  "<td>" ++ htmlEscape row.rid ++ "</td>" ++
  "<td>" ++ htmlEscape row.fio ++ "</td>" ++
  "<td>" ++ htmlEscape row.bcode ++ "</td>" ++
  "<td>" ++ htmlEscape row.bname ++ "</td>" ++
  "<td>" ++ htmlEscape row.dateStr ++ "</td>" ++
  "</tr>"

/-- Header row of the debtor table (mainwindow.cpp 179-185). -/
def debtorTableHeader : String :=
  "<table><tr><th>ID читателя</th><th>ФИО</th><th>Код книги</th>" ++
  "<th>Название книги</th><th>Дата выдачи</th></tr>"

/-- The notice rendered when no debtor row was produced (mainwindow.cpp 213). -/
def noDebtorsNotice : String :=
  "<p>На данный момент все книги возвращены. Должников нет </p>"

/-- The debtor section of the rendered report (mainwindow.cpp 174-214): the
debtor table when at least one row was produced (`hasDebtors`), the explicit
no-debtors notice otherwise. -/
def debtorSectionHtml (books : List Book) (readers : List Reader) : String :=
  let rows := debtorRows books readers
  "<h2>Должники (книги на руках)</h2>" ++
  (if rows.isEmpty then noDebtorsNotice
   else debtorTableHeader ++ String.join (rows.map debtorRowHtml) ++ "</table>")

/-- Lexicographic character-list comparison, the model of
`QString::operator<` (code-unit order). -/
def charListLt : List Char → List Char → Bool
  | [], [] => false
  | [], _ :: _ => true
  | _ :: _, [] => false
  | a :: as, b :: bs =>
    if a.toNat < b.toNat then true
    else if b.toNat < a.toNat then false
    else charListLt as bs

/-- `QString` less-than. -/
def qstrLt (a b : String) : Bool :=
  charListLt a.data b.data

/-- The book comparator of report stage 2 (mainwindow.cpp 476-479):
`a.name < b.name`. -/
def bookBefore (a b : Book) : Bool :=
  qstrLt a.name b.name

/-- The reader comparator of report stage 2 (mainwindow.cpp 481-487): compare
the `second_name` fields first, the `first_name` fields second. -/
def readerBefore (a b : Reader) : Bool :=
  if a.second_name ≠ b.second_name then qstrLt a.second_name b.second_name
  else qstrLt a.first_name b.first_name

/-- Ordered insertion with respect to a boolean "may precede" test. -/
def insertBy (le : α → α → Bool) (a : α) : List α → List α
  | [] => [a]
  | b :: rest => if le a b then a :: b :: rest else b :: insertBy le a rest

/-- Comparator-respecting sort (the observable behaviour of `std::sort`: a
permutation in which no later element strictly precedes an earlier one;
whenever the comparator keys are pairwise distinct this output is the unique
one, so any correct sort agrees with it). -/
def sortBy (le : α → α → Bool) : List α → List α
  | [] => []
  | a :: rest => insertBy le a (sortBy le rest)

/-- `std::sort` of the snapshot's books in report stage 2. -/
def sortBooksStage2 (books : List Book) : List Book :=
  sortBy (fun a b => !bookBefore b a) books

/-- `std::sort` of the snapshot's readers in report stage 2. -/
def sortReadersStage2 (readers : List Reader) : List Reader :=
  sortBy (fun a b => !readerBefore b a) readers

/-- The reader built by the add-reader dialog (mainwindow.cpp 713-741): the
input labelled `Фамилия` (surname) is stored into `first_name`, the input
labelled `Имя` (given name) into `second_name`, the input labelled `Отчество`
into `third_name`. -/
def readerFromForm (rid surnameInput nameInput patronymicInput : String)
    (male : Bool) (reg : Option LDate) : Reader :=
  { ID := rid, first_name := surnameInput, second_name := nameInput,
    third_name := patronymicInput, gender := if male then .Male else .Female,
    reg_date := reg, taken_books := [] }

/-- Modelled from the spec: the ordering the specification demands of report
stage 2 — readers sorted by last name first and first name second, where the
surname is the field populated from the `Фамилия` input (`first_name`). -/
def readerBeforeSpec (a b : Reader) : Bool :=
  if a.first_name ≠ b.first_name then qstrLt a.first_name b.first_name
  else qstrLt a.second_name b.second_name

/-- Modelled from the spec: the reader sort of report stage 2 as specified. -/
def sortReadersSpec (readers : List Reader) : List Reader :=
  sortBy (fun a b => !readerBeforeSpec b a) readers

/-- Whitespace as recognized by `QChar::isSpace` (ASCII model). -/
def isQSpace (c : Char) : Bool :=
  c = ' ' || c = '\t' || c = '\n' || c = '\r' ||
  c = Char.ofNat 11 || c = Char.ofNat 12

/-- The apostrophe character. -/
def aposChar : Char := Char.ofNat 39

/-- The backtick character. -/
def backtickChar : Char := Char.ofNat 96

/-- The opening brace character. -/
def obraceChar : Char := Char.ofNat 123

/-- The closing brace character. -/
def cbraceChar : Char := Char.ofNat 125

/-- Letters as recognized by `QChar::isLetter`: ASCII letters plus the
Cyrillic block used by the application (model of the Unicode class). -/
def isLetterC (c : Char) : Bool :=
  c.isAlpha || (0x400 ≤ c.toNat && c.toNat ≤ 0x4FF)

/-- Decimal digits, as recognized by `QChar::isDigit` (ASCII model). -/
def isDigitC (c : Char) : Bool :=
  c.isDigit

/-- Punctuation and symbol characters, the model of the regex class
`[\\p{P}\\p{S}]`: printable ASCII that is neither alphanumeric nor space,
plus the non-ASCII punctuation the validator's allow-lists mention. -/
def isPunctSymC (c : Char) : Bool :=
  (33 ≤ c.toNat && c.toNat ≤ 126 && !c.isAlphanum) ||
  c = '«' || c = '»' || c = '–' || c = '—'

/-- Membership in the title allow-list `kAllowedTitleRe` (InputValid.cpp
41-42): letters, digits, whitespace and the fixed punctuation set. -/
def isTitleAllowed (c : Char) : Bool :=
  isLetterC c || isDigitC c || isQSpace c ||
  c = '.' || c = ',' || c = ':' || c = ';' || c = '!' || c = '?' ||
  c = '(' || c = ')' || c = '[' || c = ']' || c = obraceChar || c = cbraceChar ||
  c = aposChar || c = '"' || c = '«' || c = '»' || c = '-' || c = '–' || c = '—' ||
  c = '/' || c = '\\' || c = '+' || c = '&' || c = '%' || c = '#' || c = '@'

/-- Membership in the author allow-list `kAuthorRe` (InputValid.cpp 45):
letters, hyphen, apostrophe, period and whitespace. -/
def isAuthorAllowed (c : Char) : Bool :=
  isLetterC c || c = '-' || c = aposChar || c = '.' || isQSpace c

/-- `InputValid::hasLongRepeatedPunct` (InputValid.cpp 109-112), the regex
`([\\p{P}\\p{S}])\\1\x7b2,\x7d`: three or more identical consecutive
punctuation/symbol characters. -/
def hasLongRepeatedPunct : List Char → Bool
  | a :: b :: c :: rest =>
    (isPunctSymC a && a = b && b = c) || hasLongRepeatedPunct (b :: c :: rest)
  | _ => false

/-- `InputValid::hasAdjacentInvalidHyphensOrApostrophes` (InputValid.cpp
119-122): two or more consecutive hyphens, apostrophes or backticks. -/
def hasAdjacentInvalid : List Char → Bool
  | a :: b :: rest =>
    (a = b && (a = '-' || a = aposChar || a = backtickChar)) ||
    hasAdjacentInvalid (b :: rest)
  | _ => false

/-- `InputValid::countLetters` (InputValid.cpp 83-89). -/
def countLetters (l : List Char) : Nat :=
  l.countP fun c => isLetterC c

/-- `InputValid::countDigits` (InputValid.cpp 96-102). -/
def countDigits (l : List Char) : Nat :=
  l.countP fun c => isDigitC c

/-- `InputValid::firstAlnumIndex` (InputValid.cpp 129-135): index of the
first letter-or-digit character; `none` models the return value -1. -/
def firstAlnumIndex (l : List Char) : Option Nat :=
  l.findIdx? fun c => isLetterC c || isDigitC c

/-- `InputValid::lastAlnumIndex` (InputValid.cpp 142-148). -/
def lastAlnumIndex (l : List Char) : Option Nat :=
  match (l.reverse.findIdx? fun c => isLetterC c || isDigitC c) with
  | none => none
  | some j => some (l.length - 1 - j)

/-- Accumulator pass of whitespace normalization: collect the maximal
whitespace-free runs of the input (`cur` holds the current run reversed). -/
def splitWordsAux : List Char → List Char → List (List Char)
  | [], cur => if cur = [] then [] else [cur.reverse]
  | c :: rest, cur =>
    if isQSpace c then
      if cur = [] then splitWordsAux rest []
      else cur.reverse :: splitWordsAux rest []
    else splitWordsAux rest (c :: cur)

/-- The whitespace-separated words of a character list. -/
def splitWords (l : List Char) : List (List Char) :=
  splitWordsAux l []

/-- `QString::simplified`: trim the ends and collapse every internal
whitespace run to a single space — i.e. the words joined by single spaces. -/
def simplifiedChars (l : List Char) : List Char :=
  List.intercalate [' '] (splitWords l)

/-- `InputValid::normalizeSpaces` (InputValid.cpp 73-76): `s.simplified()`. -/
def normalizeSpaces (s : String) : String :=
  ⟨simplifiedChars s.data⟩

/-- The validation error kinds of `Exception.h` raised by
`InputValid::checkAddBook`. -/
inductive InputError where
  | emptyBookName
  | invalidBookName
  | emptyAuthor
  | invalidAuthor
deriving DecidableEq, Repr

/-- The rule chain of `InputValid::checkAddBook` (InputValid.cpp 193-257)
applied to the already-normalized title and author (first failure wins, in
source order). -/
def checkAddBookNormed (nameNorm authorNorm : List Char) : Except InputError Unit :=
  if nameNorm = [] then .error .emptyBookName
  else if (match nameNorm with
           | [] => false
           | c :: _ => isPunctSymC c) then .error .invalidBookName
  else if !nameNorm.all isTitleAllowed then .error .invalidBookName
  else if countLetters nameNorm + countDigits nameNorm < 1 then .error .invalidBookName
  else if hasLongRepeatedPunct nameNorm then .error .invalidBookName
  else if hasAdjacentInvalid nameNorm then .error .invalidBookName
  else
    match firstAlnumIndex nameNorm, lastAlnumIndex nameNorm with
    | none, _ => .error .invalidBookName
    | _, none => .error .invalidBookName
    | some fi, some li =>
      if fi > 3 then .error .invalidBookName
      else if nameNorm.length - 1 - li > 3 then .error .invalidBookName
      else if countLetters nameNorm > 0 && countLetters nameNorm < 2 &&
              countDigits nameNorm = 0 &&
              !nameNorm.contains '+' && !nameNorm.contains '#' then
        .error .invalidBookName
      else if authorNorm = [] then .error .emptyAuthor
      else if !authorNorm.all isAuthorAllowed then .error .invalidAuthor
      else if hasAdjacentInvalid authorNorm then .error .invalidAuthor
      else if (match authorNorm with
               | [] => false
               | c :: _ => c = '-' || c = aposChar || c = '.') ||
              (match authorNorm.getLast? with
               | none => false
               | some c => c = '-' || c = aposChar || c = '.') then
        .error .invalidAuthor
      else if countLetters authorNorm < 2 then .error .invalidAuthor
      else .ok ()

/-- `InputValid::checkAddBook` (InputValid.cpp 193-257): normalize both
fields with `normalizeSpaces`, then run the rule chain. -/
def checkAddBook (name author : String) : Except InputError Unit :=
  checkAddBookNormed (simplifiedChars name.data) (simplifiedChars author.data)

/-- Decimal digit list of a natural number (the model of the decimal
rendering done by `QString::arg`). -/
def natToDec (n : Nat) : List Char :=
  if _h : n < 10 then [digitChar n]
  else natToDec (n / 10) ++ [digitChar (n % 10)]
decreasing_by exact Nat.div_lt_self (by omega) (by omega)

/-- Value of a digit character. -/
def digitVal (c : Char) : Nat :=
  c.toNat - 48

/-- Decimal value of a digit list (left inverse of `natToDec`). -/
def decVal (l : List Char) : Nat :=
  l.foldl (fun acc c => 10 * acc + digitVal c) 0

/-- The candidate key produced from one random draw: the C++ draws
`QRandomGenerator::global()->bounded(1000, 9999)` — a value in
`[1000, 9998]` — and renders `prefix + number`.  The raw draw `v` is reduced
into the range exactly as `bounded` guarantees. -/
def codeOfDraw (pre : String) (v : Nat) : String :=
  pre ++ String.mk (natToDec (1000 + v % 8999))

/-- The retry loop shared by `BookModel::GenerateBookCode` (BookModel.cpp
289-305) and `ReaderModel::GenerateReaderID` (ReaderModel.cpp 349-365):
consume draws `s i, s (i+1), …` until one yields a key not contained in the
existing keys.  The loop has no bound in the source; `fuel` makes the
recursion total, with `none` modelling a run that never finds a free key. -/
def genFrom (pre : String) (s : Nat → Nat) (existing : List String) :
    Nat → Nat → Option String
  | _, 0 => none
  | i, fuel + 1 =>
    let c := codeOfDraw pre (s i)
    if existing.contains c then genFrom pre s existing (i + 1) fuel
    else some c

/-- `BookModel::GenerateBookCode` over an explicit stream of draws. -/
def GenerateBookCode (s : Nat → Nat) (existingCodes : List String) (fuel : Nat) :
    Option String :=
  genFrom "B" s existingCodes 0 fuel

/-- `ReaderModel::GenerateReaderID` over an explicit stream of draws. -/
def GenerateReaderID (s : Nat → Nat) (existingIds : List String) (fuel : Nat) :
    Option String :=
  genFrom "R" s existingIds 0 fuel

/-- The 5000 distinct in-range book codes `B1000 … B5999`, used to settle the
generator scenario. -/
def fiveThousandCodes : List String :=
  (List.range 5000).map fun v => codeOfDraw "B" v

/-- Stand-in for an invalid `QDate` stored inside a present
`std::optional<QDate>` (produced when `QDate::fromString` fails on a
non-empty string); no valid date has these fields. -/
def invalidDate : LDate := ⟨0, 0, 0⟩

/-- `QDate::toString("dd/MM/yyyy")` on a valid date. -/
def dateToDmy (d : LDate) : String :=
  ⟨pad2 d.day ++ '/' :: pad2 d.month ++ '/' :: pad4 d.year⟩

/-- Character-level parse of the `dd/MM/yyyy` pattern, validating the date as
`QDate::fromString` does (`none` models an invalid `QDate` result). -/
def dmyChars : List Char → Option LDate
  | [d1, d2, '/', m1, m2, '/', y1, y2, y3, y4] =>
    if isDigitC d1 && isDigitC d2 && isDigitC m1 && isDigitC m2 &&
       isDigitC y1 && isDigitC y2 && isDigitC y3 && isDigitC y4 then
      let d : LDate :=
        ⟨10 * digitVal d1 + digitVal d2,
         10 * digitVal m1 + digitVal m2,
         1000 * digitVal y1 + 100 * digitVal y2 + 10 * digitVal y3 + digitVal y4⟩
      if validDate d then some d else none
    else none
  | _ => none

/-- `QDate::fromString(s, "dd/MM/yyyy")`. -/
def dateFromDmy (s : String) : Option LDate :=
  dmyChars s.data

/-- `QDate::toString(Qt::ISODate)` on a valid date (`yyyy-MM-dd`). -/
def dateToIso (d : LDate) : String :=
  ⟨pad4 d.year ++ '-' :: pad2 d.month ++ '-' :: pad2 d.day⟩

/-- Character-level parse of the ISO `yyyy-MM-dd` pattern. -/
def isoChars : List Char → Option LDate
  | [y1, y2, y3, y4, '-', m1, m2, '-', d1, d2] =>
    if isDigitC y1 && isDigitC y2 && isDigitC y3 && isDigitC y4 &&
       isDigitC m1 && isDigitC m2 && isDigitC d1 && isDigitC d2 then
      let d : LDate :=
        ⟨10 * digitVal d1 + digitVal d2,
         10 * digitVal m1 + digitVal m2,
         1000 * digitVal y1 + 100 * digitVal y2 + 10 * digitVal y3 + digitVal y4⟩
      if validDate d then some d else none
    else none
  | _ => none

/-- `QDate::fromString(s, Qt::ISODate)`. -/
def dateFromIso (s : String) : Option LDate :=
  isoChars s.data

/-- `QString::trimmed` on a character list. -/
def trimChars (l : List Char) : List Char :=
  ((l.dropWhile isQSpace).reverse.dropWhile isQSpace).reverse

/-- `QString::trimmed`. -/
def trimString (s : String) : String :=
  ⟨trimChars s.data⟩

/-- `QStringList::join(",")`, used by the relational backend for
`readers.taken_books`. -/
def joinComma (codes : List String) : String :=
  ⟨List.intercalate [','] (codes.map String.data)⟩

/-- `QString::split(",", Qt::SkipEmptyParts)` followed by `trimmed()` on each
part, as `ReaderModel::LoadFromDatabase` consumes `taken_books`
(ReaderModel.cpp 581-585). -/
def splitCommaSkipEmpty (s : String) : List String :=
  (((s.data).splitOn ',').filter (· ≠ [])).map fun w => String.mk (trimChars w)

/-- A `taken_books` entry that survives every backend unchanged: non-empty,
comma-free and trim-invariant. -/
def cleanCode (s : String) : Bool :=
  s.data ≠ [] && s.data.all (fun c => c ≠ ',') && trimChars s.data == s.data

/-- An optional date every text pattern reproduces: absent, or valid. -/
def validOptDate : Option LDate → Bool
  | none => true
  | some d => validDate d

/-- One element of the JSON array `BookModel::SaveToFile` writes
(BookModel.cpp 234-243): the exact keys and value kinds of the object. -/
structure BookJson where
  code : String
  name : String
  author : String
  is_taken : Bool
  date_taken : String
deriving DecidableEq, Repr

/-- Serialization of one book by `BookModel::SaveToFile`. -/
def bookToJson (b : Book) : BookJson :=
  { code := b.code, name := b.name, author := b.author, is_taken := b.is_taken,
    date_taken := match b.date_taken with
                  | some d => dateToDmy d
                  | none => "" }

/-- Deserialization of one book by `BookModel::LoadFromFile`
(BookModel.cpp 269-279): an empty date string yields an absent date, any
other string is parsed with `dd/MM/yyyy` and stored even when invalid. -/
def bookFromJson (j : BookJson) : Book :=
  { code := j.code, name := j.name, author := j.author, is_taken := j.is_taken,
    date_taken := if j.date_taken = "" then none
                  else some ((dateFromDmy j.date_taken).getD invalidDate) }

/-- One element of the JSON array `ReaderModel::SaveToFile` writes
(ReaderModel.cpp 316-336). -/
structure ReaderJson where
  ID : String
  first_name : String
  second_name : String
  third_name : String
  gender : Nat
  reg_date : String
  taken_books : List String
deriving DecidableEq, Repr

/-- Serialization of one reader by `ReaderModel::SaveToFile`. -/
def readerToJson (r : Reader) : ReaderJson :=
  { ID := r.ID, first_name := r.first_name, second_name := r.second_name,
    third_name := r.third_name, gender := sexToNat r.gender,
    reg_date := match r.reg_date with
                | some d => dateToDmy d
                | none => "",
    taken_books := r.taken_books }

/-- Deserialization of one reader by `ReaderModel::LoadFromFile`
(ReaderModel.cpp 278-297): gender 0 is `Female`, anything else `Male`; an
empty registration string yields an invalid (absent) date. -/
def readerFromJson (j : ReaderJson) : Reader :=
  { ID := j.ID, first_name := j.first_name, second_name := j.second_name,
    third_name := j.third_name,
    gender := if j.gender = 0 then .Female else .Male,
    reg_date := if j.reg_date = "" then none else dateFromDmy j.reg_date,
    taken_books := j.taken_books }

/-- One `<book>` element written by `BookModel::SaveToXml`
(BookModel.cpp 371-381): `is_taken` is the text `1` or `0`. -/
structure BookXml where
  code : String
  name : String
  author : String
  is_taken : String
  date_taken : String
deriving DecidableEq, Repr

/-- Serialization of one book by `BookModel::SaveToXml`. -/
def bookToXml (b : Book) : BookXml :=
  { code := b.code, name := b.name, author := b.author,
    is_taken := if b.is_taken then "1" else "0",
    date_taken := match b.date_taken with
                  | some d => dateToDmy d
                  | none => "" }

/-- Deserialization of one book by `BookModel::LoadFromXml`
(BookModel.cpp 325-341). -/
def bookFromXml (x : BookXml) : Book :=
  { code := x.code, name := x.name, author := x.author,
    is_taken := x.is_taken = "1",
    date_taken := if x.date_taken = "" then none
                  else some ((dateFromDmy x.date_taken).getD invalidDate) }

/-- One `<reader>` element written by `ReaderModel::SaveToXml`
(ReaderModel.cpp 485-506). -/
structure ReaderXml where
  ID : String
  first_name : String
  second_name : String
  third_name : String
  gender : String
  reg_date : String
  taken_books : List String
deriving DecidableEq, Repr

/-- Serialization of one reader by `ReaderModel::SaveToXml`. -/
def readerToXml (r : Reader) : ReaderXml :=
  { ID := r.ID, first_name := r.first_name, second_name := r.second_name,
    third_name := r.third_name,
    gender := if r.gender = .Male then "1" else "0",
    reg_date := match r.reg_date with
                | some d => dateToDmy d
                | none => "",
    taken_books := r.taken_books }

/-- Deserialization of one reader by `ReaderModel::LoadFromXml`
(ReaderModel.cpp 394-455): the gender and registration texts are trimmed,
and each `taken_books` entry is trimmed and dropped when empty. -/
def readerFromXml (x : ReaderXml) : Reader :=
  { ID := x.ID, first_name := x.first_name, second_name := x.second_name,
    third_name := x.third_name,
    gender := if trimString x.gender = "1" then .Male else .Female,
    reg_date := if trimString x.reg_date = "" then none
                else dateFromDmy (trimString x.reg_date),
    taken_books := (x.taken_books.map trimString).filter (· ≠ "") }

/-- One row of the `books` table as written by
`BookModel::InsertOrUpdateInDatabase` (BookModel.cpp 437-453): `is_taken` an
integer, `date_taken` ISO text or empty. -/
structure BookRow where
  code : String
  name : String
  author : String
  is_taken : Nat
  date_taken : String
deriving DecidableEq, Repr

/-- Serialization of one book to its database row. -/
def bookToRow (b : Book) : BookRow :=
  { code := b.code, name := b.name, author := b.author,
    is_taken := if b.is_taken then 1 else 0,
    date_taken := match b.date_taken with
                  | some d => dateToIso d
                  | none => "" }

/-- Deserialization of one book by `BookModel::LoadFromDatabase`
(BookModel.cpp 406-416): `is_taken` is any non-zero integer, the date is
parsed with `Qt::ISODate`. -/
def bookFromRow (row : BookRow) : Book :=
  { code := row.code, name := row.name, author := row.author,
    is_taken := row.is_taken ≠ 0,
    date_taken := if row.date_taken = "" then none
                  else some ((dateFromIso row.date_taken).getD invalidDate) }

/-- One row of the `readers` table as written by
`ReaderModel::InsertOrUpdateInDatabase` (ReaderModel.cpp 605-630):
`taken_books` denormalized to a comma-joined string, `reg_date` in
`dd/MM/yyyy` or empty. -/
structure ReaderRow where
  ID : String
  first_name : String
  second_name : String
  third_name : String
  gender : Nat
  reg_date : String
  taken_books : String
deriving DecidableEq, Repr

/-- Serialization of one reader to its database row. -/
def readerToRow (r : Reader) : ReaderRow :=
  { ID := r.ID, first_name := r.first_name, second_name := r.second_name,
    third_name := r.third_name, gender := sexToNat r.gender,
    reg_date := match r.reg_date with
                | some d => dateToDmy d
                | none => "",
    taken_books := joinComma r.taken_books }

/-- Deserialization of one reader by `ReaderModel::LoadFromDatabase`
(ReaderModel.cpp 567-587): gender 1 is `Male`, anything else `Female`;
`taken_books` is split on commas, skipping empty parts and trimming. -/
def readerFromRow (row : ReaderRow) : Reader :=
  { ID := row.ID, first_name := row.first_name, second_name := row.second_name,
    third_name := row.third_name,
    gender := if row.gender = 1 then .Male else .Female,
    reg_date := if row.reg_date = "" then none else dateFromDmy row.reg_date,
    taken_books := splitCommaSkipEmpty row.taken_books }

/-- A reader whose single `taken_books` entry contains a comma, breaking the
relational round trip. -/
def commaReader : Reader :=
  { ID := "R1111", first_name := "Petrov", second_name := "Petr",
    third_name := "", gender := .Male, reg_date := none,
    taken_books := ["B1000,B2000"] }

instance : DecidableEq (Except InputError Unit) := fun a b =>
  match a, b with
  | .ok x, .ok y =>
    if h : x = y then isTrue (by rw [h]) else isFalse (fun hh => h (Except.ok.inj hh))
  | .error x, .error y =>
    if h : x = y then isTrue (by rw [h]) else isFalse (fun hh => h (Except.error.inj hh))
  | .ok _, .error _ => isFalse fun hh => Except.noConfusion hh
  | .error _, .ok _ => isFalse fun hh => Except.noConfusion hh

/-- A reader entered through the add-reader dialog with surname `A` and
given name `B`. -/
def readerSurnameA : Reader := readerFromForm "R1000" "A" "B" "" true none

/-- A reader entered through the add-reader dialog with surname `B` and
given name `A`. -/
def readerSurnameB : Reader := readerFromForm "R2000" "B" "A" "" true none

/-! Theorems.  Helper lemmas come first, then one theorem per claim (with
its witness or counterexample where required). -/

theorem removeBook_not_found (books : List Book) (code : String)
    (h : ∀ b ∈ books, b.code ≠ code) :
    RemoveBook books code = (.ok false, books) := by
  induction books with
  | nil => rfl
  | cons a rest ih =>
    have ha : a.code ≠ code := h a (List.mem_cons_self a rest)
    have hrest : ∀ b ∈ rest, b.code ≠ code := fun b hb => h b (List.mem_cons_of_mem a hb)
    simp [RemoveBook, ha, ih hrest]

theorem removeBook_found_taken (books : List Book) (code : String) (b : Book)
    (huniq : codesUnique books) (hmem : b ∈ books) (hcode : b.code = code)
    (htaken : b.is_taken = true) :
    RemoveBook books code = (.error .bookDeleteForbidden, books) := by
  induction books with
  | nil => cases hmem
  | cons a rest ih =>
    have hnodup := huniq
    rw [codesUnique, List.map_cons, List.nodup_cons] at hnodup
    rcases List.mem_cons.mp hmem with hba | hbrest
    · subst hba
      simp [RemoveBook, hcode, htaken]
    · have ha : a.code ≠ code := by
        intro hac
        exact hnodup.1 (hac ▸ hcode ▸ List.mem_map_of_mem Book.code hbrest)
      simp [RemoveBook, ha, ih hnodup.2 hbrest]

theorem removeBook_found_free (books : List Book) (code : String) (b : Book)
    (huniq : codesUnique books) (hmem : b ∈ books) (hcode : b.code = code)
    (hfree : b.is_taken = false) :
    RemoveBook books code = (.ok true, books.eraseP fun x => x.code == code) ∧
    (books.eraseP fun x => x.code == code).length + 1 = books.length := by
  induction books with
  | nil => cases hmem
  | cons a rest ih =>
    have hnodup := huniq
    rw [codesUnique, List.map_cons, List.nodup_cons] at hnodup
    rcases List.mem_cons.mp hmem with hba | hbrest
    · subst hba
      constructor
      · simp [RemoveBook, hcode, hfree, List.eraseP_cons, hcode]
      · simp [List.eraseP_cons, hcode]
    · have ha : a.code ≠ code := by
        intro hac
        exact hnodup.1 (hac ▸ hcode ▸ List.mem_map_of_mem Book.code hbrest)
      have := ih hnodup.2 hbrest
      constructor
      · simp [RemoveBook, ha, this.1, List.eraseP_cons]
      · simpa [List.eraseP_cons, ha] using this.2

/-- C1: on a collection with unique codes, `RemoveBook` returns `false` and
changes nothing when no book carries the code; when the book exists and is
taken it throws `BookDeleteForbiddenException` and the collection (hence its
count) is unchanged; when the book exists and is free it removes exactly
that book (the count drops by one) and returns `true`. -/
theorem removeBook_contract (books : List Book) (code : String)
    (huniq : codesUnique books) :
    ((∀ b ∈ books, b.code ≠ code) → RemoveBook books code = (.ok false, books)) ∧
    (∀ b ∈ books, b.code = code → b.is_taken = true →
      RemoveBook books code = (.error .bookDeleteForbidden, books)) ∧
    (∀ b ∈ books, b.code = code → b.is_taken = false →
      RemoveBook books code = (.ok true, books.eraseP fun x => x.code == code) ∧
      (books.eraseP fun x => x.code == code).length + 1 = books.length) := by
  refine ⟨removeBook_not_found books code, ?_, ?_⟩
  · intro b hb hc ht
    exact removeBook_found_taken books code b huniq hb hc ht
  · intro b hb hc ht
    exact removeBook_found_free books code b huniq hb hc ht

/-- Witness for C1: a concrete taken book is protected from removal. -/
theorem removeBook_contract_witness :
    RemoveBook [sampleBookFree, sampleBookTaken] "B2000" =
      (.error .bookDeleteForbidden, [sampleBookFree, sampleBookTaken]) :=
  (removeBook_contract [sampleBookFree, sampleBookTaken] "B2000" (by decide)).2.1
    sampleBookTaken (by decide) (by decide) (by decide)

/-- C2 counterexample: starting from a collection with unique codes,
`AddBook` happily appends a second book with an already-present code, so
uniqueness does not hold after every `AddBook` call. -/
theorem add_uniqueness_cex :
    codesUnique [sampleBookFree] ∧
    ¬ codesUnique (AddBook [sampleBookFree] sampleBookDup) := by
  constructor <;> decide

/-- C2 (amended): `AddBook` preserves `Book.code` uniqueness and `AddReader`
preserves `Reader.ID` uniqueness provided the appended entity's key is not
already present — the precondition the callers establish through the
generated-key discipline; the operations themselves perform no check. -/
theorem add_preserves_uniqueness (books : List Book) (b : Book)
    (readers : List Reader) (r : Reader)
    (hbooks : codesUnique books) (hfresh : b.code ∉ books.map Book.code)
    (hreaders : idsUnique readers) (hfreshr : r.ID ∉ readers.map Reader.ID) :
    codesUnique (AddBook books b) ∧ idsUnique (AddReader readers r) := by
  constructor
  · rw [codesUnique, AddBook, List.map_append, List.nodup_append]
    refine ⟨hbooks, List.nodup_singleton _, ?_⟩
    intro a ha hab
    rw [List.map_singleton, List.mem_singleton] at hab
    exact hfresh (hab ▸ ha)
  · rw [idsUnique, AddReader, List.map_append, List.nodup_append]
    refine ⟨hreaders, List.nodup_singleton _, ?_⟩
    intro a ha hab
    rw [List.map_singleton, List.mem_singleton] at hab
    exact hfreshr (hab ▸ ha)

/-- Witness for C2: appending fresh keys to concrete collections. -/
theorem add_preserves_uniqueness_witness :
    codesUnique (AddBook [sampleBookTaken] sampleBookFree) ∧
    idsUnique (AddReader [] sampleReader) :=
  add_preserves_uniqueness [sampleBookTaken] sampleBookFree [] sampleReader
    (by decide) (by decide) (by decide) (by decide)

theorem updateBookCode_state (readers : List Reader) (oldC newC : String) :
    (UpdateBookCodeForAllReaders readers oldC newC).2 =
      readers.map fun r => updateReaderCodes r oldC newC := by
  induction readers with
  | nil => rfl
  | cons r rest ih => simp [UpdateBookCodeForAllReaders, ih]

theorem updateBookCode_flag (readers : List Reader) (oldC newC : String) :
    (UpdateBookCodeForAllReaders readers oldC newC).1 = true ↔
      ∃ r ∈ readers, oldC ∈ r.taken_books := by
  induction readers with
  | nil => simp [UpdateBookCodeForAllReaders]
  | cons r rest ih =>
    show (r.taken_books.contains oldC ||
      (UpdateBookCodeForAllReaders rest oldC newC).1) = true ↔ _
    rw [Bool.or_eq_true, ih, List.elem_iff]
    constructor
    · rintro (h | h)
      · exact ⟨r, List.mem_cons_self r rest, h⟩
      · obtain ⟨x, hx, hmem⟩ := h
        exact ⟨x, List.mem_cons_of_mem r hx, hmem⟩
    · rintro ⟨x, hx, hmem⟩
      rcases List.mem_cons.mp hx with hxr | hxr
      · exact Or.inl (hxr ▸ hmem)
      · exact Or.inr ⟨x, hxr, hmem⟩

theorem updateReaderCodes_changed (r : Reader) (oldC newC : String)
    (hne : oldC ≠ newC) :
    updateReaderCodes r oldC newC ≠ r ↔ oldC ∈ r.taken_books := by
  constructor
  · intro hchg
    by_contra hmem
    apply hchg
    have hcongr : ∀ c ∈ r.taken_books, (if c = oldC then newC else c) = id c := by
      intro c hc
      have hco : c ≠ oldC := fun h => hmem (h ▸ hc)
      simp [hco]
    have : r.taken_books.map (fun c => if c = oldC then newC else c) = r.taken_books := by
      rw [List.map_congr_left hcongr, List.map_id]
    simp [updateReaderCodes, this]
  · intro hmem hchg
    have heq : r.taken_books.map (fun c => if c = oldC then newC else c)
        = r.taken_books := congrArg Reader.taken_books hchg
    have hmem' : oldC ∈ r.taken_books.map (fun c => if c = oldC then newC else c) :=
      heq.symm ▸ hmem
    obtain ⟨c, _, hc⟩ := List.mem_map.mp hmem'
    by_cases h : c = oldC
    · rw [if_pos h] at hc
      exact hne hc.symm
    · rw [if_neg h] at hc
      exact h hc

/-- C3 counterexample: renaming a code to itself reports `true` although the
resulting reader list is identical to the input — the return value does not
coincide with "at least one reader was modified" for every pair of codes. -/
theorem updateBookCode_cex :
    UpdateBookCodeForAllReaders [sampleReader] "B2000" "B2000" =
      (true, [sampleReader]) := by
  decide

/-- C3 (amended): for distinct codes `old ≠ new` — the only case the rename
cascade is invoked in — `UpdateBookCodeForAllReaders` rewrites every
`taken_books` entry equal to `old` into `new` and nothing else (each reader
keeps its identity, name, gender, registration fields, and every non-matching
entry), a reader's record actually changes exactly when it referenced `old`
(so exactly the k referencing readers are modified and zero others), and the
returned flag is `true` iff at least one reader referenced `old`.  When
`old = new` the flag can be `true` with no reader modified. -/
theorem updateBookCode_contract (readers : List Reader) (oldC newC : String)
    (hne : oldC ≠ newC) :
    (UpdateBookCodeForAllReaders readers oldC newC).2 =
      (readers.map fun r => updateReaderCodes r oldC newC) ∧
    (∀ r : Reader,
      (updateReaderCodes r oldC newC).ID = r.ID ∧
      (updateReaderCodes r oldC newC).first_name = r.first_name ∧
      (updateReaderCodes r oldC newC).second_name = r.second_name ∧
      (updateReaderCodes r oldC newC).third_name = r.third_name ∧
      (updateReaderCodes r oldC newC).gender = r.gender ∧
      (updateReaderCodes r oldC newC).reg_date = r.reg_date ∧
      (updateReaderCodes r oldC newC).taken_books =
        r.taken_books.map fun c => if c = oldC then newC else c) ∧
    (∀ r ∈ readers, updateReaderCodes r oldC newC ≠ r ↔ oldC ∈ r.taken_books) ∧
    ((UpdateBookCodeForAllReaders readers oldC newC).1 = true ↔
      ∃ r ∈ readers, oldC ∈ r.taken_books) := by
  refine ⟨updateBookCode_state readers oldC newC, ?_, ?_, updateBookCode_flag readers oldC newC⟩
  · intro r
    exact ⟨rfl, rfl, rfl, rfl, rfl, rfl, rfl⟩
  · intro r _
    exact updateReaderCodes_changed r oldC newC hne

/-- Witness for C3: renaming `B2000` to `B3000` touches the one referencing
reader. -/
theorem updateBookCode_contract_witness :
    (UpdateBookCodeForAllReaders [sampleReader] "B2000" "B3000").1 = true ↔
      ∃ r ∈ [sampleReader], "B2000" ∈ r.taken_books :=
  (updateBookCode_contract [sampleReader] "B2000" "B3000" (by decide)).2.2.2

/-- C4 counterexample: `SetBookTaken` with `taken = false` and a present date
argument stores that date — `date_taken` is not cleared when `taken` is
false. -/
theorem setBookTaken_cex :
    (SetBookTaken [sampleBookFree] "B1000" false (some ⟨10, 5, 2024⟩)).1 = true ∧
    ((SetBookTaken [sampleBookFree] "B1000" false (some ⟨10, 5, 2024⟩)).2.head?.map
       Book.date_taken) = some (some ⟨10, 5, 2024⟩) := by
  constructor <;> decide

/-- C4 (amended): `SetBookTaken` returns `false` and changes nothing when no
book carries the code; otherwise it sets that book's `is_taken` to `taken`
and assigns `date_taken` the supplied date argument unconditionally — the
function itself never clears the date on `taken = false`; the callers pass an
absent date in that case — and returns `true`. -/
theorem setBookTaken_contract (books : List Book) (code : String)
    (isTaken : Bool) (date : Option LDate) :
    ((∀ b ∈ books, b.code ≠ code) →
      SetBookTaken books code isTaken date = (false, books)) ∧
    (codesUnique books → ∀ b ∈ books, b.code = code →
      SetBookTaken books code isTaken date =
        (true, books.map fun x =>
          if x.code = code then { x with is_taken := isTaken, date_taken := date }
          else x)) := by
  constructor
  · intro h
    induction books with
    | nil => rfl
    | cons a rest ih =>
      have ha : a.code ≠ code := h a (List.mem_cons_self a rest)
      have hrest : ∀ b ∈ rest, b.code ≠ code := fun b hb => h b (List.mem_cons_of_mem a hb)
      simp [SetBookTaken, ha, ih hrest]
  · intro huniq b hb hcode
    induction books with
    | nil => cases hb
    | cons a rest ih =>
      have hnodup := huniq
      rw [codesUnique, List.map_cons, List.nodup_cons] at hnodup
      rcases List.mem_cons.mp hb with hba | hbrest
      · subst hba
        have hrest : ∀ x ∈ rest, x.code ≠ code := by
          intro x hx hxc
          apply hnodup.1
          rw [hcode, ← hxc]
          exact List.mem_map_of_mem Book.code hx
        have hmap : rest.map (fun x =>
            if x.code = code then { x with is_taken := isTaken, date_taken := date }
            else x) = rest := by
          have hcongr : ∀ x ∈ rest, (if x.code = code
              then { x with is_taken := isTaken, date_taken := date } else x) = id x := by
            intro x hx
            simp [hrest x hx]
          rw [List.map_congr_left hcongr, List.map_id]
        simp [SetBookTaken, hcode, hmap]
      · have ha : a.code ≠ code := by
          intro hac
          exact hnodup.1 (hac ▸ hcode ▸ List.mem_map_of_mem Book.code hbrest)
        simp [SetBookTaken, ha, ih hnodup.2 hbrest]

/-- Witness for C4: lending a concrete free book stores the taken flag and
the supplied date. -/
theorem setBookTaken_contract_witness :
    SetBookTaken [sampleBookFree, sampleBookTaken] "B1000" true (some ⟨10, 5, 2024⟩) =
      (true, [sampleBookFree, sampleBookTaken].map fun x =>
        if x.code = "B1000"
        then { x with is_taken := true, date_taken := some ⟨10, 5, 2024⟩ }
        else x) :=
  (setBookTaken_contract [sampleBookFree, sampleBookTaken] "B1000" true
      (some ⟨10, 5, 2024⟩)).2 (by decide) sampleBookFree (by decide) (by decide)

/-- C10: `FindBook` returns the default-constructed `Book` — empty code,
title and author, `is_taken` false, absent `date_taken` — whenever no stored
book carries the queried code; its return type carries no error or optional
channel, and a stored book equal to the default-constructed one (in
particular one whose code is the empty string) produces the same result as a
genuine miss: `FindBook` on a catalog containing it and on the empty catalog
agree, although the code is present in the former and absent in the
latter. -/
theorem findBook_contract :
    (∀ (books : List Book) (code : String),
      (∀ b ∈ books, b.code ≠ code) → FindBook books code = defaultBook) ∧
    (defaultBook.code = "" ∧ defaultBook.name = "" ∧ defaultBook.author = "" ∧
      defaultBook.is_taken = false ∧ defaultBook.date_taken = none) ∧
    (FindBook [defaultBook] "" = FindBook [] "" ∧
      (∃ b ∈ [defaultBook], b.code = "") ∧
      ¬ (∃ b ∈ ([] : List Book), b.code = "")) := by
  refine ⟨?_, ⟨rfl, rfl, rfl, rfl, rfl⟩, by decide, ⟨defaultBook, by decide⟩, by decide⟩
  intro books code h
  induction books with
  | nil => rfl
  | cons a rest ih =>
    have ha : a.code ≠ code := h a (List.mem_cons_self a rest)
    have hrest : ∀ b ∈ rest, b.code ≠ code := fun b hb => h b (List.mem_cons_of_mem a hb)
    simp [FindBook, ha, ih hrest]

/-- Witness for C10: a miss on a concrete catalog yields the default book. -/
theorem findBook_contract_witness :
    FindBook [sampleBookFree, sampleBookTaken] "B9999" = defaultBook :=
  findBook_contract.1 [sampleBookFree, sampleBookTaken] "B9999" (by decide)

/-- C8: the aggregate stage orders the snapshot's readers by the
`second_name` field first — but the add-reader dialog (mainwindow.cpp
714-736) stores the `Фамилия` (surname) input into `first_name`, so the
report orders readers by given name, not by surname: on two readers with
surnames `A` and `B` (given names `B` and `A`), the pipeline puts the
surname-`B` reader first, while the specified last-name-first order keeps
the surname-`A` reader first.  (The book half of the stage, sorting by
title, is as specified.) -/
theorem reportSort_code_bug :
    sortReadersStage2 [readerSurnameA, readerSurnameB] =
      [readerSurnameB, readerSurnameA] ∧
    sortReadersSpec [readerSurnameA, readerSurnameB] =
      [readerSurnameA, readerSurnameB] ∧
    sortBooksStage2 [sampleBookTaken, sampleBookFree] =
      [sampleBookTaken, sampleBookFree] := by
  refine ⟨?_, ?_, ?_⟩ <;> decide

theorem splitWordsAux_wf (l : List Char) :
    ∀ cur, (∀ c ∈ cur, isQSpace c = false) →
      ∀ w ∈ splitWordsAux l cur, w ≠ [] ∧ ∀ c ∈ w, isQSpace c = false := by
  induction l with
  | nil =>
    intro cur hcur w hw
    by_cases hc : cur = []
    · simp [splitWordsAux, hc] at hw
    · simp [splitWordsAux, hc] at hw
      subst hw
      exact ⟨by simpa using hc, fun c hc' => hcur c (List.mem_reverse.mp hc')⟩
  | cons a rest ih =>
    intro cur hcur w hw
    by_cases ha : isQSpace a = true
    · by_cases hc : cur = []
      · rw [splitWordsAux, if_pos ha, if_pos hc] at hw
        exact ih [] (by simp) w hw
      · rw [splitWordsAux, if_pos ha, if_neg hc] at hw
        rcases List.mem_cons.mp hw with hw | hw
        · subst hw
          exact ⟨by simpa using hc, fun c hc' => hcur c (List.mem_reverse.mp hc')⟩
        · exact ih [] (by simp) w hw
    · rw [splitWordsAux, if_neg ha] at hw
      refine ih (a :: cur) ?_ w hw
      intro c hc
      rcases List.mem_cons.mp hc with hc | hc
      · subst hc; simpa using ha
      · exact hcur c hc

theorem splitWordsAux_word (w : List Char) :
    ∀ (l cur : List Char), (∀ c ∈ w, isQSpace c = false) →
      splitWordsAux (w ++ l) cur = splitWordsAux l (w.reverse ++ cur) := by
  induction w with
  | nil => intro l cur _; simp
  | cons a w' ih =>
    intro l cur hw
    have ha : isQSpace a = false := hw a (List.mem_cons_self a w')
    have hw' : ∀ c ∈ w', isQSpace c = false := fun c hc => hw c (List.mem_cons_of_mem a hc)
    rw [List.cons_append, splitWordsAux, if_neg (by simp [ha])]
    rw [ih l (a :: cur) hw']
    simp

theorem splitWords_intercalate (ws : List (List Char))
    (hws : ∀ w ∈ ws, w ≠ [] ∧ ∀ c ∈ w, isQSpace c = false) :
    splitWords (List.intercalate [' '] ws) = ws := by
  induction ws with
  | nil => simp [List.intercalate, splitWords, splitWordsAux]
  | cons w ws' ih =>
    have hw := hws w (List.mem_cons_self w ws')
    have hws' : ∀ u ∈ ws', u ≠ [] ∧ ∀ c ∈ u, isQSpace c = false :=
      fun u hu => hws u (List.mem_cons_of_mem w hu)
    cases ws' with
    | nil =>
      have : List.intercalate [' '] [w] = w := by
        simp [List.intercalate]
      rw [this, splitWords, show w = w ++ ([] : List Char) by simp,
        splitWordsAux_word w [] [] hw.2]
      simp [splitWordsAux, hw.1]
    | cons w2 ws'' =>
      have hstep : List.intercalate [' '] (w :: w2 :: ws'') =
          w ++ ' ' :: List.intercalate [' '] (w2 :: ws'') := by
        simp [List.intercalate, List.intersperse]
      rw [hstep, splitWords, splitWordsAux_word w _ [] hw.2]
      have hrev : w.reverse ++ ([] : List Char) ≠ [] := by
        simpa using hw.1
      rw [splitWordsAux, if_pos (by simp [isQSpace]), if_neg hrev]
      rw [show (w.reverse ++ ([] : List Char)).reverse = w by simp]
      rw [show splitWordsAux (List.intercalate [' '] (w2 :: ws'')) [] =
            splitWords (List.intercalate [' '] (w2 :: ws'')) from rfl]
      rw [ih hws']

theorem simplifiedChars_idem (l : List Char) :
    simplifiedChars (simplifiedChars l) = simplifiedChars l := by
  unfold simplifiedChars
  rw [show splitWords (List.intercalate [' '] (splitWords l)) = splitWords l from
    splitWords_intercalate (splitWords l) (splitWordsAux_wf l [] (by simp))]

theorem checkAddBook_renormalize (name author : String) :
    checkAddBook (normalizeSpaces name) (normalizeSpaces author) =
      checkAddBook name author := by
  show checkAddBookNormed (simplifiedChars (simplifiedChars name.data))
      (simplifiedChars (simplifiedChars author.data)) = _
  rw [simplifiedChars_idem, simplifiedChars_idem]
  rfl

/-- C9: validation is idempotent over whitespace normalization — whenever the
add-book check accepts a `(title, author)` pair, it also accepts the
normalized pair (internal whitespace runs collapsed to single spaces, ends
trimmed); indeed the re-run returns the identical verdict. -/
theorem checkAddBook_idempotent (name author : String)
    (h : checkAddBook name author = .ok ()) :
    checkAddBook (normalizeSpaces name) (normalizeSpaces author) = .ok () := by
  rw [checkAddBook_renormalize, h]

/-- Witness for C9: a concretely accepted pair stays accepted after
normalization. -/
theorem checkAddBook_idempotent_witness :
    checkAddBook (normalizeSpaces "  Voina  i mir ") (normalizeSpaces " Lev  Tolstoi ") =
      .ok () :=
  checkAddBook_idempotent "  Voina  i mir " " Lev  Tolstoi " (by decide)

theorem lookupLast_acc (books : List Book) (code : String) :
    ∀ acc b, books.foldl (fun acc b => if b.code = code then some b else acc) acc = some b →
      (b ∈ books ∧ b.code = code) ∨ acc = some b := by
  induction books with
  | nil => intro acc b h; exact Or.inr h
  | cons x rest ih =>
    intro acc b h
    rw [List.foldl_cons] at h
    rcases ih _ b h with hmem | hacc
    · exact Or.inl ⟨List.mem_cons_of_mem x hmem.1, hmem.2⟩
    · by_cases hx : x.code = code
      · rw [if_pos hx] at hacc
        exact Or.inl ⟨List.mem_cons.mpr (Or.inl (Option.some.inj hacc).symm),
          (Option.some.inj hacc) ▸ hx⟩
      · rw [if_neg hx] at hacc
        exact Or.inr hacc

theorem lookupLast_mem (books : List Book) (code : String) (b : Book)
    (h : lookupLast books code = some b) : b ∈ books ∧ b.code = code := by
  rcases lookupLast_acc books code none b h with hm | hc
  · exact hm
  · cases hc

theorem lookupLast_frame (books : List Book) (code : String)
    (h : ∀ x ∈ books, x.code ≠ code) (acc : Option Book) :
    books.foldl (fun acc b => if b.code = code then some b else acc) acc = acc := by
  induction books generalizing acc with
  | nil => rfl
  | cons x rest ih =>
    rw [List.foldl_cons, if_neg (h x (List.mem_cons_self x rest))]
    exact ih (fun y hy => h y (List.mem_cons_of_mem x hy)) acc

theorem lookupLast_found (books : List Book) (code : String) (b : Book)
    (huniq : codesUnique books) (hmem : b ∈ books) (hcode : b.code = code) :
    lookupLast books code = some b := by
  obtain ⟨s, t, rfl⟩ := List.append_of_mem hmem
  have ht : ∀ x ∈ t, x.code ≠ code := by
    have h1 : (b.code :: t.map Book.code).Nodup := by
      have := huniq
      rw [codesUnique, List.map_append, List.map_cons] at this
      exact this.of_append_right
    intro x hx hxc
    exact (List.nodup_cons.mp h1).1 (hcode ▸ hxc ▸ List.mem_map_of_mem Book.code hx)
  rw [lookupLast, List.foldl_append, List.foldl_cons, if_pos hcode]
  exact lookupLast_frame t code ht (some b)

theorem bookTakenAt_iff (books : List Book) (code : String)
    (huniq : codesUnique books) :
    bookTakenAt books code = true ↔ ∃ b ∈ books, b.code = code ∧ b.is_taken = true := by
  constructor
  · intro h
    rw [bookTakenAt] at h
    rcases hl : lookupLast books code with _ | b
    · rw [hl] at h; cases h
    · rw [hl] at h
      obtain ⟨hm, hc⟩ := lookupLast_mem books code b hl
      exact ⟨b, hm, hc, h⟩
  · rintro ⟨b, hm, hc, ht⟩
    rw [bookTakenAt, lookupLast_found books code b huniq hm hc]
    exact ht

theorem debtorRowOf_some (books : List Book) (r : Reader) (code : String)
    (row : DebtorRow) (h : debtorRowOf books r code = some row) :
    row.rid = r.ID ∧ row.bcode = code ∧ row.fio = fioOf r ∧
    bookTakenAt books code = true := by
  rcases hl : lookupLast books code with _ | b
  · simp [debtorRowOf, hl] at h
  · by_cases ht : b.is_taken = true
    · simp only [debtorRowOf, hl, ht, if_true] at h
      obtain ⟨_, hc⟩ := lookupLast_mem books code b hl
      cases h
      exact ⟨rfl, hc, rfl, by simp only [bookTakenAt, hl]; exact ht⟩
    · simp [debtorRowOf, hl, ht] at h

theorem debtorRowOf_none (books : List Book) (r : Reader) (code : String)
    (h : debtorRowOf books r code = none) : bookTakenAt books code = false := by
  rcases hl : lookupLast books code with _ | b
  · simp only [bookTakenAt, hl]
  · by_cases ht : b.is_taken = true
    · simp [debtorRowOf, hl, ht] at h
    · simp only [bookTakenAt, hl]
      exact Bool.not_eq_true b.is_taken ▸ ht

theorem debtor_inner_count (books : List Book) (r : Reader) (code : String) :
    ∀ tb : List String, tb.Nodup →
      (tb.filterMap (debtorRowOf books r)).countP (fun row => row.bcode == code) =
        if code ∈ tb ∧ bookTakenAt books code = true then 1 else 0 := by
  intro tb
  induction tb with
  | nil => intro _; simp
  | cons c rest ih =>
    intro hnodup
    obtain ⟨hc, hrest⟩ := List.nodup_cons.mp hnodup
    rw [List.filterMap_cons]
    rcases hrow : debtorRowOf books r c with _ | row
    · rw [ih hrest]
      by_cases hcc : code = c
      · subst hcc
        have hfalse := debtorRowOf_none books r code hrow
        simp [hfalse, hc]
      · simp [List.mem_cons, hcc]
    · obtain ⟨_, hbc, _, htaken⟩ := debtorRowOf_some books r c row hrow
      rw [List.countP_cons, ih hrest]
      by_cases hcc : code = c
      · subst hcc
        have : (row.bcode == code) = true := by
          rw [hbc]; exact beq_self_eq_true code
        simp [this, hc, htaken]
      · have : (row.bcode == code) = false := by
          rw [hbc]
          exact beq_eq_false_iff_ne.mpr (fun h => hcc h.symm)
        simp [this, List.mem_cons, hcc]

theorem debtor_other_readers (books : List Book) (rid code : String) :
    ∀ readers : List Reader, (∀ x ∈ readers, x.ID ≠ rid) →
      (debtorRows books readers).countP
        (fun row => row.rid == rid && row.bcode == code) = 0 := by
  intro readers hne
  rw [List.countP_eq_zero]
  intro row hrow
  rw [debtorRows, List.mem_flatMap] at hrow
  obtain ⟨x, hx, hrowx⟩ := hrow
  obtain ⟨c, _, hsome⟩ := List.mem_filterMap.mp hrowx
  obtain ⟨hrid, _, _, _⟩ := debtorRowOf_some books x c row hsome
  have : (row.rid == rid) = false :=
    beq_eq_false_iff_ne.mpr (hrid ▸ hne x hx)
  simp [this]

theorem debtor_count_takenAt (books : List Book) (readers : List Reader)
    (hids : idsUnique readers) (htb : ∀ r ∈ readers, r.taken_books.Nodup)
    (r : Reader) (hr : r ∈ readers) (code : String) :
    (debtorRows books readers).countP
        (fun row => row.rid == r.ID && row.bcode == code) =
      if code ∈ r.taken_books ∧ bookTakenAt books code = true then 1 else 0 := by
  induction readers with
  | nil => cases hr
  | cons x rest ih =>
    have hnodup := hids
    rw [idsUnique, List.map_cons, List.nodup_cons] at hnodup
    rw [debtorRows, List.flatMap_cons, List.countP_append]
    rw [show rest.flatMap (fun r => r.taken_books.filterMap (debtorRowOf books r)) =
          debtorRows books rest from rfl]
    rcases List.mem_cons.mp hr with hrx | hrrest
    · subst hrx
      have hothers : (debtorRows books rest).countP
          (fun row => row.rid == r.ID && row.bcode == code) = 0 := by
        refine debtor_other_readers books r.ID code rest ?_
        intro y hy hyid
        exact hnodup.1 (hyid ▸ List.mem_map_of_mem Reader.ID hy)
      have hsame : (r.taken_books.filterMap (debtorRowOf books r)).countP
            (fun row => row.rid == r.ID && row.bcode == code) =
          (r.taken_books.filterMap (debtorRowOf books r)).countP
            (fun row => row.bcode == code) := by
        apply List.countP_congr
        intro row hrow
        obtain ⟨c, _, hsome⟩ := List.mem_filterMap.mp hrow
        obtain ⟨hrid, _, _, _⟩ := debtorRowOf_some books r c row hsome
        rw [hrid, beq_self_eq_true, Bool.true_and]
      rw [hothers, hsame,
        debtor_inner_count books r code r.taken_books (htb r hr), Nat.add_zero]
    · have hxid : x.ID ≠ r.ID := by
        intro hxr
        exact hnodup.1 (hxr ▸ List.mem_map_of_mem Reader.ID hrrest)
      have hx0 : (x.taken_books.filterMap (debtorRowOf books x)).countP
          (fun row => row.rid == r.ID && row.bcode == code) = 0 := by
        rw [List.countP_eq_zero]
        intro row hrow
        obtain ⟨c, _, hsome⟩ := List.mem_filterMap.mp hrow
        obtain ⟨hrid, _, _, _⟩ := debtorRowOf_some books x c row hsome
        have : (row.rid == r.ID) = false :=
          beq_eq_false_iff_ne.mpr (hrid ▸ hxid)
        simp [this]
      rw [hx0, ih hnodup.2 (fun y hy => htb y (List.mem_cons_of_mem x hy)) hrrest]
      simp

theorem debtorRowOf_eq_none_iff (books : List Book) (r : Reader) (code : String) :
    debtorRowOf books r code = none ↔ bookTakenAt books code = false := by
  constructor
  · exact debtorRowOf_none books r code
  · intro h
    rcases hl : lookupLast books code with _ | b
    · simp [debtorRowOf, hl]
    · simp only [bookTakenAt, hl] at h
      simp [debtorRowOf, hl, h]

/-- C7: on a snapshot satisfying the catalog invariants (unique book codes,
unique reader IDs, duplicate-free `taken_books`), the rendered report's
debtor table has exactly one row for every pair `(reader, code)` with `code`
in the reader's `taken_books` and a taken book of that code present in the
snapshot, and no other rows (every row arises from such a pair); the debtor
list is empty exactly when no such pair exists, and then the debtor section
of the report is the explicit no-debtors notice. -/
theorem reportDebtors_contract (books : List Book) (readers : List Reader)
    (hbooks : codesUnique books) (hids : idsUnique readers)
    (htb : ∀ r ∈ readers, r.taken_books.Nodup) :
    (∀ r ∈ readers, ∀ code : String,
      (debtorRows books readers).countP
          (fun row => row.rid == r.ID && row.bcode == code) =
        if code ∈ r.taken_books ∧ ∃ b ∈ books, b.code = code ∧ b.is_taken = true
        then 1 else 0) ∧
    (∀ row ∈ debtorRows books readers, ∃ r ∈ readers, row.rid = r.ID ∧
      ∃ code ∈ r.taken_books, row.bcode = code ∧
        ∃ b ∈ books, b.code = code ∧ b.is_taken = true) ∧
    ((debtorRows books readers = []) ↔
      ¬ ∃ r ∈ readers, ∃ code ∈ r.taken_books,
          ∃ b ∈ books, b.code = code ∧ b.is_taken = true) ∧
    (debtorRows books readers = [] →
      debtorSectionHtml books readers =
        "<h2>Должники (книги на руках)</h2>" ++ noDebtorsNotice) := by
  refine ⟨?_, ?_, ?_, ?_⟩
  · intro r hr code
    rw [debtor_count_takenAt books readers hids htb r hr code]
    simp only [bookTakenAt_iff books code hbooks]
  · intro row hrow
    rw [debtorRows, List.mem_flatMap] at hrow
    obtain ⟨r, hr, hrowr⟩ := hrow
    obtain ⟨c, hc, hsome⟩ := List.mem_filterMap.mp hrowr
    obtain ⟨hrid, hbc, _, htk⟩ := debtorRowOf_some books r c row hsome
    exact ⟨r, hr, hrid, c, hc, hbc, (bookTakenAt_iff books c hbooks).mp htk⟩
  · rw [debtorRows, List.flatMap_eq_nil_iff]
    constructor
    · rintro h ⟨r, hr, c, hc, hex⟩
      have hnone := (List.filterMap_eq_nil_iff.mp (h r hr)) c hc
      have hfalse := debtorRowOf_none books r c hnone
      have htrue := (bookTakenAt_iff books c hbooks).mpr hex
      rw [hfalse] at htrue
      cases htrue
    · intro h r hr
      rw [List.filterMap_eq_nil_iff]
      intro c hc
      rw [debtorRowOf_eq_none_iff]
      by_contra htk
      have : bookTakenAt books c = true := by
        cases hb : bookTakenAt books c
        · exact absurd hb htk
        · rfl
      exact h ⟨r, hr, c, hc, (bookTakenAt_iff books c hbooks).mp this⟩
  · intro h
    simp [debtorSectionHtml, h]

/-- Witness for C7: the specified scenario — two books, one taken, one
available, one reader holding the taken book — yields exactly one debtor
row for that pair. -/
theorem reportDebtors_contract_witness :
    (debtorRows [sampleBookTaken, sampleBookFree] [sampleReader]).countP
        (fun row => row.rid == sampleReader.ID && row.bcode == "B2000") =
      if "B2000" ∈ sampleReader.taken_books ∧
          ∃ b ∈ [sampleBookTaken, sampleBookFree], b.code = "B2000" ∧ b.is_taken = true
      then 1 else 0 :=
  (reportDebtors_contract [sampleBookTaken, sampleBookFree] [sampleReader]
      (by decide) (by decide) (by decide)).1 sampleReader
      (List.mem_cons_self sampleReader []) "B2000"

theorem digitVal_digitChar (k : Nat) (hk : k < 10) :
    digitVal (digitChar k) = k := by
  interval_cases k <;> decide

theorem decVal_natToDec (n : Nat) : decVal (natToDec n) = n := by
  induction n using Nat.strong_induction_on with
  | _ n ih =>
    rw [natToDec]
    by_cases h : n < 10
    · rw [dif_pos h]
      show 10 * 0 + digitVal (digitChar n) = n
      rw [digitVal_digitChar n h]
      omega
    · rw [dif_neg h]
      show decVal (natToDec (n / 10) ++ [digitChar (n % 10)]) = n
      rw [decVal, List.foldl_append]
      show 10 * decVal (natToDec (n / 10)) + digitVal (digitChar (n % 10)) = n
      rw [ih (n / 10) (Nat.div_lt_self (by omega) (by omega)),
        digitVal_digitChar (n % 10) (Nat.mod_lt n (by omega))]
      omega

theorem natToDec_inj (a b : Nat) (h : natToDec a = natToDec b) : a = b := by
  have := congrArg decVal h
  rwa [decVal_natToDec, decVal_natToDec] at this

theorem codeOfDraw_inj (pre : String) (a b : Nat) (ha : a < 8999) (hb : b < 8999)
    (h : codeOfDraw pre a = codeOfDraw pre b) : a = b := by
  rw [codeOfDraw, codeOfDraw] at h
  have hdata := congrArg String.data h
  rw [String.data_append, String.data_append] at hdata
  have hl := List.append_cancel_left hdata
  have := natToDec_inj _ _ hl
  rw [Nat.mod_eq_of_lt ha, Nat.mod_eq_of_lt hb] at this
  omega

theorem freeCode_exists (pre : String) (codes : List String)
    (_hnodup : codes.Nodup) (hlen : codes.length = 5000) :
    ∃ v, v < 8999 ∧ codeOfDraw pre v ∉ codes := by
  by_contra h
  push_neg at h
  have hsub : ∀ c ∈ (List.range 8999).map (codeOfDraw pre), c ∈ codes := by
    intro c hc
    obtain ⟨v, hv, rfl⟩ := List.mem_map.mp hc
    exact h v (List.mem_range.mp hv)
  have hmapnodup : ((List.range 8999).map (codeOfDraw pre)).Nodup := by
    refine List.Nodup.map_on ?_ (List.nodup_range 8999)
    intro x hx y hy hxy
    exact codeOfDraw_inj pre x y (List.mem_range.mp hx) (List.mem_range.mp hy) hxy
  have hcard1 : ((List.range 8999).map (codeOfDraw pre)).toFinset.card = 8999 := by
    rw [List.toFinset_card_of_nodup hmapnodup]
    simp
  have hsubf : ((List.range 8999).map (codeOfDraw pre)).toFinset ⊆ codes.toFinset := by
    intro c hc
    rw [List.mem_toFinset] at hc ⊢
    exact hsub c hc
  have hcard2 : codes.toFinset.card ≤ 5000 := hlen ▸ codes.toFinset_card_le
  have := Finset.card_le_card hsubf
  omega

theorem genFrom_terminates (pre : String) (s : Nat → Nat) (codes : List String) :
    ∀ (fuel i : Nat),
      (∃ k, k < fuel ∧ codes.contains (codeOfDraw pre (s (i + k))) = false) →
      ∃ c, genFrom pre s codes i fuel = some c ∧ c ∉ codes := by
  intro fuel
  induction fuel with
  | zero => rintro i ⟨k, hk, _⟩; omega
  | succ fuel ih =>
    rintro i ⟨k, hk, hfresh⟩
    rcases hc : codes.contains (codeOfDraw pre (s i)) with _ | _
    · refine ⟨codeOfDraw pre (s i), ?_, ?_⟩
      · rw [genFrom, hc]
        rfl
      · intro hmem
        have : codes.contains (codeOfDraw pre (s i)) = true := List.elem_iff.mpr hmem
        rw [hc] at this
        cases this
    · have hkpos : k ≠ 0 := by
        intro hk0
        rw [hk0, Nat.add_zero] at hfresh
        rw [hfresh] at hc
        cases hc
      obtain ⟨k', rfl⟩ := Nat.exists_eq_succ_of_ne_zero hkpos
      obtain ⟨c, hgen, hcmem⟩ := ih (i + 1) ⟨k', by omega, by
        rw [show i + 1 + k' = i + (k' + 1) by omega]
        exact hfresh⟩
      refine ⟨c, ?_, hcmem⟩
      rw [genFrom, hc]
      exact hgen

/-- C6 counterexample: against the 5000 distinct in-range codes
`B1000 … B5999`, a draw stream that always proposes the colliding suffix 1000
makes the generator loop forever — no amount of fuel produces a result — so
the generator does not always terminate; it only terminates almost surely. -/
theorem generate_cex :
    fiveThousandCodes.Nodup ∧ fiveThousandCodes.length = 5000 ∧
    (∀ c ∈ fiveThousandCodes, ∃ v, v < 8999 ∧ c = codeOfDraw "B" v) ∧
    ¬ ∃ fuel c, GenerateBookCode (fun _ => 0) fiveThousandCodes fuel = some c := by
  have hnodup : fiveThousandCodes.Nodup := by
    refine List.Nodup.map_on ?_ (List.nodup_range 5000)
    intro x hx y hy hxy
    exact codeOfDraw_inj "B" x y (by have := List.mem_range.mp hx; omega)
      (by have := List.mem_range.mp hy; omega) hxy
  have hmem0 : codeOfDraw "B" 0 ∈ fiveThousandCodes :=
    List.mem_map.mpr ⟨0, List.mem_range.mpr (by omega), rfl⟩
  have hloop : ∀ fuel i, genFrom "B" (fun _ => 0) fiveThousandCodes i fuel = none := by
    intro fuel
    induction fuel with
    | zero => intro i; rfl
    | succ fuel ih =>
      intro i
      have hcont : fiveThousandCodes.contains (codeOfDraw "B" 0) = true :=
        List.elem_iff.mpr hmem0
      rw [genFrom, if_pos hcont]
      exact ih (i + 1)
  refine ⟨hnodup, by simp [fiveThousandCodes], ?_, ?_⟩
  · intro c hc
    obtain ⟨v, hv, rfl⟩ := List.mem_map.mp hc
    exact ⟨v, by have := List.mem_range.mp hv; omega, rfl⟩
  · rintro ⟨fuel, c, hgen⟩
    rw [GenerateBookCode, hloop fuel 0] at hgen
    cases hgen

/-- C6 (amended): both key generators draw suffixes in `[1000, 9999)` and
retry on collision; against any set of 5000 distinct codes a free in-range
code always exists (8999 candidates versus 5000 taken), and whenever the
random stream eventually proposes a non-colliding suffix — an event of
probability one, though not guaranteed for every stream — the generator
terminates and its result is not in the existing set. -/
theorem generate_contract :
    (∀ (pre : String) (codes : List String), codes.Nodup → codes.length = 5000 →
      ∃ v, v < 8999 ∧ codeOfDraw pre v ∉ codes) ∧
    (∀ (s : Nat → Nat) (codes : List String),
      (∃ n, codes.contains (codeOfDraw "B" (s n)) = false) →
      ∃ fuel c, GenerateBookCode s codes fuel = some c ∧ c ∉ codes) ∧
    (∀ (s : Nat → Nat) (ids : List String),
      (∃ n, ids.contains (codeOfDraw "R" (s n)) = false) →
      ∃ fuel c, GenerateReaderID s ids fuel = some c ∧ c ∉ ids) := by
  refine ⟨freeCode_exists, ?_, ?_⟩
  · rintro s codes ⟨n, hn⟩
    obtain ⟨c, hgen, hc⟩ :=
      genFrom_terminates "B" s codes (n + 1) 0 ⟨n, by omega, by simpa using hn⟩
    exact ⟨n + 1, c, hgen, hc⟩
  · rintro s ids ⟨n, hn⟩
    obtain ⟨c, hgen, hc⟩ :=
      genFrom_terminates "R" s ids (n + 1) 0 ⟨n, by omega, by simpa using hn⟩
    exact ⟨n + 1, c, hgen, hc⟩

/-- Witness for C6: a stream drawing 6000 immediately escapes the 5000-code
set. -/
theorem generate_contract_witness :
    ∃ fuel c, GenerateBookCode (fun _ => 6000) fiveThousandCodes fuel = some c ∧
      c ∉ fiveThousandCodes :=
  generate_contract.2.1 (fun _ => 6000) fiveThousandCodes
    ⟨0, by
      have : codeOfDraw "B" 6000 ∉ fiveThousandCodes := by
        intro hmem
        obtain ⟨v, hv, heq⟩ := List.mem_map.mp hmem
        have hv' := List.mem_range.mp hv
        have := codeOfDraw_inj "B" v 6000 (by omega) (by omega) heq
        omega
      rcases hc : fiveThousandCodes.contains (codeOfDraw "B" 6000) with _ | _
      · rfl
      · exact absurd (List.elem_iff.mp hc) this⟩

theorem isDigitC_digitChar (k : Nat) (hk : k < 10) :
    isDigitC (digitChar k) = true := by
  interval_cases k <;> decide

theorem isQSpace_digitChar (k : Nat) (hk : k < 10) :
    isQSpace (digitChar k) = false := by
  interval_cases k <;> decide

theorem daysInMonth_le (m y : Nat) : daysInMonth m y ≤ 31 := by
  rw [daysInMonth]
  split
  · split <;> omega
  · split <;> omega

theorem validDate_bounds (d : LDate) (hv : validDate d = true) :
    1 ≤ d.year ∧ d.year ≤ 9999 ∧ 1 ≤ d.month ∧ d.month ≤ 12 ∧
    1 ≤ d.day ∧ d.day ≤ 31 := by
  have h31 := daysInMonth_le d.month d.year
  simp only [validDate, Bool.and_eq_true, decide_eq_true_eq] at hv
  omega

theorem dateFromDmy_dateToDmy (d : LDate) (hv : validDate d = true) :
    dateFromDmy (dateToDmy d) = some d := by
  obtain ⟨hy1, hy2, hm1, hm2, hd1, hd2⟩ := validDate_bounds d hv
  show dmyChars (pad2 d.day ++ '/' :: pad2 d.month ++ '/' :: pad4 d.year) = some d
  rw [pad2, pad2, pad4]
  show dmyChars [digitChar (d.day / 10), digitChar (d.day % 10), '/',
    digitChar (d.month / 10), digitChar (d.month % 10), '/',
    digitChar (d.year / 1000), digitChar (d.year / 100 % 10),
    digitChar (d.year / 10 % 10), digitChar (d.year % 10)] = some d
  rw [dmyChars]
  rw [if_pos (by
    rw [isDigitC_digitChar _ (by omega), isDigitC_digitChar _ (by omega),
      isDigitC_digitChar _ (by omega), isDigitC_digitChar _ (by omega),
      isDigitC_digitChar _ (by omega), isDigitC_digitChar _ (by omega),
      isDigitC_digitChar _ (by omega), isDigitC_digitChar _ (by omega)]
    rfl)]
  have hfields : (⟨10 * digitVal (digitChar (d.day / 10)) + digitVal (digitChar (d.day % 10)),
      10 * digitVal (digitChar (d.month / 10)) + digitVal (digitChar (d.month % 10)),
      1000 * digitVal (digitChar (d.year / 1000)) + 100 * digitVal (digitChar (d.year / 100 % 10)) +
        10 * digitVal (digitChar (d.year / 10 % 10)) + digitVal (digitChar (d.year % 10))⟩ : LDate) = d := by
    rw [digitVal_digitChar _ (by omega), digitVal_digitChar _ (by omega),
      digitVal_digitChar _ (by omega), digitVal_digitChar _ (by omega),
      digitVal_digitChar _ (by omega), digitVal_digitChar _ (by omega),
      digitVal_digitChar _ (by omega), digitVal_digitChar _ (by omega)]
    have e1 : 10 * (d.day / 10) + d.day % 10 = d.day := by omega
    have e2 : 10 * (d.month / 10) + d.month % 10 = d.month := by omega
    have e3 : 1000 * (d.year / 1000) + 100 * (d.year / 100 % 10) +
        10 * (d.year / 10 % 10) + d.year % 10 = d.year := by omega
    rw [e1, e2, e3]
  rw [hfields, if_pos hv]

theorem dateFromIso_dateToIso (d : LDate) (hv : validDate d = true) :
    dateFromIso (dateToIso d) = some d := by
  obtain ⟨hy1, hy2, hm1, hm2, hd1, hd2⟩ := validDate_bounds d hv
  show isoChars (pad4 d.year ++ '-' :: pad2 d.month ++ '-' :: pad2 d.day) = some d
  rw [pad2, pad2, pad4]
  show isoChars [digitChar (d.year / 1000), digitChar (d.year / 100 % 10),
    digitChar (d.year / 10 % 10), digitChar (d.year % 10), '-',
    digitChar (d.month / 10), digitChar (d.month % 10), '-',
    digitChar (d.day / 10), digitChar (d.day % 10)] = some d
  rw [isoChars]
  rw [if_pos (by
    rw [isDigitC_digitChar _ (by omega), isDigitC_digitChar _ (by omega),
      isDigitC_digitChar _ (by omega), isDigitC_digitChar _ (by omega),
      isDigitC_digitChar _ (by omega), isDigitC_digitChar _ (by omega),
      isDigitC_digitChar _ (by omega), isDigitC_digitChar _ (by omega)]
    rfl)]
  have hfields : (⟨10 * digitVal (digitChar (d.day / 10)) + digitVal (digitChar (d.day % 10)),
      10 * digitVal (digitChar (d.month / 10)) + digitVal (digitChar (d.month % 10)),
      1000 * digitVal (digitChar (d.year / 1000)) + 100 * digitVal (digitChar (d.year / 100 % 10)) +
        10 * digitVal (digitChar (d.year / 10 % 10)) + digitVal (digitChar (d.year % 10))⟩ : LDate) = d := by
    rw [digitVal_digitChar _ (by omega), digitVal_digitChar _ (by omega),
      digitVal_digitChar _ (by omega), digitVal_digitChar _ (by omega),
      digitVal_digitChar _ (by omega), digitVal_digitChar _ (by omega),
      digitVal_digitChar _ (by omega), digitVal_digitChar _ (by omega)]
    have e1 : 10 * (d.day / 10) + d.day % 10 = d.day := by omega
    have e2 : 10 * (d.month / 10) + d.month % 10 = d.month := by omega
    have e3 : 1000 * (d.year / 1000) + 100 * (d.year / 100 % 10) +
        10 * (d.year / 10 % 10) + d.year % 10 = d.year := by omega
    rw [e1, e2, e3]
  rw [hfields, if_pos hv]

theorem mk_data (s : String) : String.mk s.data = s := rfl

theorem dropWhile_of_all_false (p : α → Bool) :
    ∀ l : List α, (∀ c ∈ l, p c = false) → l.dropWhile p = l := by
  intro l h
  induction l with
  | nil => rfl
  | cons a rest _ =>
    rw [List.dropWhile_cons, if_neg]
    rw [h a (List.mem_cons_self a rest)]
    simp

theorem trimChars_of_clean (l : List Char) (h : ∀ c ∈ l, isQSpace c = false) :
    trimChars l = l := by
  rw [trimChars, dropWhile_of_all_false isQSpace l h,
    dropWhile_of_all_false isQSpace l.reverse
      (fun c hc => h c (List.mem_reverse.mp hc)),
    List.reverse_reverse]

theorem dateToDmy_clean (d : LDate) (hv : validDate d = true) :
    ∀ c ∈ (dateToDmy d).data, isQSpace c = false := by
  obtain ⟨hy1, hy2, hm1, hm2, hd1, hd2⟩ := validDate_bounds d hv
  intro c hc
  show isQSpace c = false
  have : (dateToDmy d).data =
      [digitChar (d.day / 10), digitChar (d.day % 10), '/',
       digitChar (d.month / 10), digitChar (d.month % 10), '/',
       digitChar (d.year / 1000), digitChar (d.year / 100 % 10),
       digitChar (d.year / 10 % 10), digitChar (d.year % 10)] := rfl
  rw [this] at hc
  simp only [List.mem_cons, List.not_mem_nil, or_false] at hc
  rcases hc with h | h | h | h | h | h | h | h | h | h <;> subst h
  · exact isQSpace_digitChar _ (by omega)
  · exact isQSpace_digitChar _ (by omega)
  · decide
  · exact isQSpace_digitChar _ (by omega)
  · exact isQSpace_digitChar _ (by omega)
  · decide
  · exact isQSpace_digitChar _ (by omega)
  · exact isQSpace_digitChar _ (by omega)
  · exact isQSpace_digitChar _ (by omega)
  · exact isQSpace_digitChar _ (by omega)

theorem dateToDmy_ne_empty (d : LDate) : dateToDmy d ≠ "" := by
  intro h
  have := congrArg String.data h
  rw [show (dateToDmy d).data = pad2 d.day ++ '/' :: pad2 d.month ++ '/' :: pad4 d.year
    from rfl, pad2] at this
  cases this

theorem dateToIso_ne_empty (d : LDate) : dateToIso d ≠ "" := by
  intro h
  have := congrArg String.data h
  rw [show (dateToIso d).data = pad4 d.year ++ '-' :: pad2 d.month ++ '-' :: pad2 d.day
    from rfl, pad4] at this
  cases this

theorem trimString_dateToDmy (d : LDate) (hv : validDate d = true) :
    trimString (dateToDmy d) = dateToDmy d := by
  rw [trimString, trimChars_of_clean _ (dateToDmy_clean d hv), mk_data]

theorem cleanCode_spec (c : String) (h : cleanCode c = true) :
    c.data ≠ [] ∧ (∀ ch ∈ c.data, ch ≠ ',') ∧ trimChars c.data = c.data := by
  simp only [cleanCode, Bool.and_eq_true, decide_eq_true_eq, List.all_eq_true,
    beq_iff_eq] at h
  exact ⟨h.1.1, fun ch hch => h.1.2 ch hch, h.2⟩

theorem splitCommaSkipEmpty_joinComma (codes : List String)
    (hclean : ∀ c ∈ codes, cleanCode c = true) :
    splitCommaSkipEmpty (joinComma codes) = codes := by
  rw [splitCommaSkipEmpty, joinComma]
  rw [show (String.mk (List.intercalate [','] (codes.map String.data))).data =
    List.intercalate [','] (codes.map String.data) from rfl]
  cases hcs : codes with
  | nil => rfl
  | cons c0 rest =>
    subst hcs
    rw [List.splitOn_intercalate ((c0 :: rest).map String.data) ',' ?hx ?hls]
    case hx =>
      intro l hl
      obtain ⟨c, hc, rfl⟩ := List.mem_map.mp hl
      intro hcomma
      exact absurd rfl ((cleanCode_spec c (hclean c hc)).2.1 ',' hcomma)
    case hls => simp
    rw [List.filter_eq_self.mpr ?hne]
    case hne =>
      intro l hl
      obtain ⟨c, hc, rfl⟩ := List.mem_map.mp hl
      simpa using (cleanCode_spec c (hclean c hc)).1
    rw [List.map_map]
    rw [List.map_congr_left (g := id) ?hid, List.map_id]
    case hid =>
      intro c hc
      show String.mk (trimChars c.data) = c
      rw [(cleanCode_spec c (hclean c hc)).2.2, mk_data]

theorem bookFromJson_toJson (b : Book) (hv : validOptDate b.date_taken = true) :
    bookFromJson (bookToJson b) = b := by
  obtain ⟨code, name, author, tk, dt⟩ := b
  rcases dt with _ | d
  · rfl
  · have hvd : validDate d = true := hv
    simp only [bookToJson, bookFromJson]
    rw [if_neg (dateToDmy_ne_empty d), dateFromDmy_dateToDmy d hvd]
    rfl

theorem readerFromJson_toJson (r : Reader) (hv : validOptDate r.reg_date = true) :
    readerFromJson (readerToJson r) = r := by
  obtain ⟨rid, fn, sn, tn, g, reg, tb⟩ := r
  rcases reg with _ | d
  · cases g <;> rfl
  · have hvd : validDate d = true := hv
    simp only [readerToJson, readerFromJson]
    rw [if_neg (dateToDmy_ne_empty d), dateFromDmy_dateToDmy d hvd]
    cases g <;> rfl

theorem bookFromXml_toXml (b : Book) (hv : validOptDate b.date_taken = true) :
    bookFromXml (bookToXml b) = b := by
  obtain ⟨code, name, author, tk, dt⟩ := b
  rcases dt with _ | d
  · cases tk <;> rfl
  · have hvd : validDate d = true := hv
    simp only [bookToXml, bookFromXml]
    rw [if_neg (dateToDmy_ne_empty d), dateFromDmy_dateToDmy d hvd]
    cases tk <;> rfl

theorem readerFromXml_toXml (r : Reader) (hv : validOptDate r.reg_date = true)
    (hclean : ∀ c ∈ r.taken_books, cleanCode c = true) :
    readerFromXml (readerToXml r) = r := by
  obtain ⟨rid, fn, sn, tn, g, reg, tb⟩ := r
  have htb : (tb.map trimString).filter (· ≠ "") = tb := by
    rw [List.map_congr_left (g := id) ?htrim, List.map_id]
    case htrim =>
      intro c hc
      show trimString c = c
      rw [trimString, (cleanCode_spec c (hclean c hc)).2.2, mk_data]
    rw [List.filter_eq_self.mpr ?hne]
    case hne =>
      intro c hc
      have := (cleanCode_spec c (hclean c hc)).1
      simp only [ne_eq, decide_eq_true_eq]
      intro hceq
      exact this (congrArg String.data hceq)
  rcases reg with _ | d
  · cases g <;> (simp only [readerToXml, readerFromXml]; rw [htb]; rfl)
  · have hvd : validDate d = true := hv
    simp only [readerToXml, readerFromXml]
    rw [trimString_dateToDmy d hvd,
      if_neg (dateToDmy_ne_empty d), dateFromDmy_dateToDmy d hvd, htb]
    cases g <;> rfl

theorem bookFromRow_toRow (b : Book) (hv : validOptDate b.date_taken = true) :
    bookFromRow (bookToRow b) = b := by
  obtain ⟨code, name, author, tk, dt⟩ := b
  rcases dt with _ | d
  · cases tk <;> rfl
  · have hvd : validDate d = true := hv
    simp only [bookToRow, bookFromRow]
    rw [if_neg (dateToIso_ne_empty d), dateFromIso_dateToIso d hvd]
    cases tk <;> rfl

theorem readerFromRow_toRow (r : Reader) (hv : validOptDate r.reg_date = true)
    (hclean : ∀ c ∈ r.taken_books, cleanCode c = true) :
    readerFromRow (readerToRow r) = r := by
  obtain ⟨rid, fn, sn, tn, g, reg, tb⟩ := r
  have htb := splitCommaSkipEmpty_joinComma tb hclean
  rcases reg with _ | d
  · cases g <;> (simp only [readerToRow, readerFromRow]; rw [htb]; rfl)
  · have hvd : validDate d = true := hv
    simp only [readerToRow, readerFromRow]
    rw [if_neg (dateToDmy_ne_empty d), dateFromDmy_dateToDmy d hvd, htb]
    cases g <;> rfl

/-- C5 counterexample: the relational backend denormalizes `taken_books` to a
comma-joined string, so a catalog whose reader holds the single entry
`B1000,B2000` does not survive save-then-load — the load splits it into two
entries — refuting the round trip for every catalog. -/
theorem roundTrip_cex :
    readerFromRow (readerToRow commaReader) ≠ commaReader ∧
    (readerFromRow (readerToRow commaReader)).taken_books = ["B1000", "B2000"] ∧
    commaReader.taken_books = ["B1000,B2000"] := by
  refine ⟨?_, by decide, by decide⟩
  decide

theorem mapRoundTrip (f : α → β) (g : β → α) (l : List α)
    (h : ∀ a ∈ l, g (f a) = a) : (l.map f).map g = l := by
  rw [List.map_map, Function.comp_def]
  rw [List.map_congr_left (g := id) (fun a ha => h a ha), List.map_id]

/-- C5 (amended): for each persistence backend — JSON, XML, relational —
loading what was saved reproduces the catalog field for field, for every
catalog (of any size, with and without `date_taken`) whose dates are valid
calendar dates in four-digit years and whose `taken_books` entries are
non-empty, comma-free and trim-invariant.  Entries violating the latter are
mangled by the relational comma-join/split and by the XML trim-and-drop on
load, as the counterexample shows. -/
theorem roundTrip_contract (books : List Book) (readers : List Reader)
    (hbdates : ∀ b ∈ books, validOptDate b.date_taken = true)
    (hrdates : ∀ r ∈ readers, validOptDate r.reg_date = true)
    (hcodes : ∀ r ∈ readers, ∀ c ∈ r.taken_books, cleanCode c = true) :
    (books.map bookToJson).map bookFromJson = books ∧
    (readers.map readerToJson).map readerFromJson = readers ∧
    (books.map bookToXml).map bookFromXml = books ∧
    (readers.map readerToXml).map readerFromXml = readers ∧
    (books.map bookToRow).map bookFromRow = books ∧
    (readers.map readerToRow).map readerFromRow = readers := by
  refine ⟨?_, ?_, ?_, ?_, ?_, ?_⟩
  · exact mapRoundTrip _ _ books fun b hb => bookFromJson_toJson b (hbdates b hb)
  · exact mapRoundTrip _ _ readers fun r hr => readerFromJson_toJson r (hrdates r hr)
  · exact mapRoundTrip _ _ books fun b hb => bookFromXml_toXml b (hbdates b hb)
  · exact mapRoundTrip _ _ readers fun r hr =>
      readerFromXml_toXml r (hrdates r hr) (hcodes r hr)
  · exact mapRoundTrip _ _ books fun b hb => bookFromRow_toRow b (hbdates b hb)
  · exact mapRoundTrip _ _ readers fun r hr =>
      readerFromRow_toRow r (hrdates r hr) (hcodes r hr)

/-- Witness for C5: a concrete catalog — one book without a date, one with a
date, one reader with a registration date and one loan — survives all three
backends. -/
theorem roundTrip_contract_witness :
    ([sampleBookFree, sampleBookTaken].map bookToJson).map bookFromJson =
      [sampleBookFree, sampleBookTaken] ∧
    ([sampleReader].map readerToJson).map readerFromJson = [sampleReader] ∧
    ([sampleBookFree, sampleBookTaken].map bookToXml).map bookFromXml =
      [sampleBookFree, sampleBookTaken] ∧
    ([sampleReader].map readerToXml).map readerFromXml = [sampleReader] ∧
    ([sampleBookFree, sampleBookTaken].map bookToRow).map bookFromRow =
      [sampleBookFree, sampleBookTaken] ∧
    ([sampleReader].map readerToRow).map readerFromRow = [sampleReader] :=
  roundTrip_contract [sampleBookFree, sampleBookTaken] [sampleReader]
    (by decide) (by decide) (by decide)
